import Mathlib

/-!
# Verification of the `strainer` structure module

This file gives a shallow embedding of `strainer/structure.py` — a declarative
field-mapping and validation layer — and proves properties of the embedding.

Modelling conventions:

* Python runtime values become the inductive type `Val`.  Python objects
  (attribute access) are the `Val.obj` constructor, plain mappings are
  `Val.dict`.  Python `None` is `Val.none`.
* Mutable target dictionaries become association lists (`Dict`) threaded
  explicitly; Python `dict` assignment/`update` is `dictSet`/`dictUpdate`
  (overwrite in place for an existing key, append for a new one).
* A raised `ValidationException` carries a mapping `ErrMap` from field keys
  (names or numeric indices) to nested error payloads (`ErrVal`).  Any other
  Python exception (`TypeError` from iterating a non-list, `AttributeError`
  from a failed attribute access) is `PyErr.fault`; these are never caught by
  the library, matching the `except ValidationException` clauses in the
  source.
* Field-level deserialization returns the final state of the accumulator
  *together with* an optional raised error, because the source mutates the
  caller's `target` dict before raising on the `many` path.
-/

set_option autoImplicit false

namespace Strainer

/-- Python runtime values, as far as the library observes them. -/
inductive Val where
  | none
  | bool (b : Bool)
  | int (n : Int)
  | str (s : String)
  | list (xs : List Val)
  | dict (entries : List (String × Val))
  | obj (attrs : List (String × Val))

/-- A Python `dict` with string keys, in insertion order. -/
abbrev Dict := List (String × Val)

/-- A key of a validation-error mapping: a field name or a list index. -/
inductive EKey where
  | str (s : String)
  | idx (n : Nat)
deriving DecidableEq

/-- The payload carried by a `ValidationException`: leaf messages, lists of
payloads, or nested mappings. -/
inductive ErrVal where
  | msg (s : String)
  | vlist (xs : List ErrVal)
  | vmap (entries : List (EKey × ErrVal))

/-- The `errors` mapping of a raised `ValidationException` at a point where
the source treats it as a dict (field, child, many and serializer level). -/
abbrev ErrMap := List (EKey × ErrVal)

/-- An exception escaping a library operation: either a `ValidationException`
or any other Python error (`TypeError`, `AttributeError`, ...), which the
library never catches. -/
inductive PyErr where
  | validation (errors : ErrMap)
  | fault (msg : String)

/-- First-match association-list lookup, i.e. Python `d[k]`-style search. -/
def dictGet {α β : Type} [DecidableEq α] : List (α × β) → α → Option β
  | [], _ => Option.none
  | (k, v) :: rest, key => if k = key then some v else dictGet rest key

/-- Python `d[key] = val`: overwrite in place if the key exists, else append. -/
def dictSet {α β : Type} [DecidableEq α] : List (α × β) → α → β → List (α × β)
  | [], key, val => [(key, val)]
  | (k, v) :: rest, key, val =>
    if k = key then (key, val) :: rest else (k, v) :: dictSet rest key val

/-- Python `d.update(upd)`: set every entry of `upd` into `d`, in order. -/
def dictUpdate {α β : Type} [DecidableEq α] (d upd : List (α × β)) : List (α × β) :=
  upd.foldl (fun acc p => dictSet acc p.1 p.2) d

/-- Python `source.get(k)` on a mapping: `None` when the key is missing. -/
def pyGet (d : Dict) (k : String) : Val := (dictGet d k).getD Val.none

/-- Python `source.get(k, dflt)` on a mapping. -/
def pyGetD (d : Dict) (k : String) (dflt : Val) : Val := (dictGet d k).getD dflt

/-- View a value as a Python list, for `for`-loop iteration.  Anything that is
not a list yields `none`, modelling the `TypeError` raised by iteration. -/
def Val.asList : Val → Option (List Val)
  | .list xs => some xs
  | _ => Option.none

/-- View a value as a mapping, for `.get` key lookup.  Anything else yields
`none`, modelling the `AttributeError` raised by `.get` on a non-mapping. -/
def Val.asDict : Val → Option Dict
  | .dict d => some d
  | _ => Option.none

/-- A caller-supplied validator: `(value, context) -> value`, failing by
raising a `ValidationException` with an arbitrary payload. -/
abbrev Validator (γ : Type) := Val → γ → Except ErrVal Val

/-- A caller-supplied formatter: `(value, context) -> value`, infallible. -/
abbrev Formatter (γ : Type) := Val → γ → Val

/-- The `Translator` pair returned by `field`, `dict_field`, `child` and
`many`: `serialize(source, target, context)` and
`deserialize(source, target, context)`.  Deserialization returns the final
state of the `target` accumulator together with the raised exception, if any,
because the source can mutate `target` before raising. -/
structure Translator (γ : Type) where
  serialize : Val → Dict → γ → Except PyErr Dict
  deserialize : Dict → Dict → γ → Dict × Option PyErr

/-- The record-level `Translator` returned by `serializer`:
`serialize(source, context)` and `deserialize(source, context)`, each
building a fresh target. -/
structure Serializer (γ : Type) where
  serialize : Val → γ → Except PyErr Dict
  deserialize : Dict → γ → Except PyErr Dict

variable {γ : Type}

/-- `run_validators` from the source: apply each validator in order, feeding
the running value forward; a failing validator contributes its payload to the
error list and leaves the running value as it was before it ran. -/
def run_validators (value : Val) (validators : List (Validator γ)) (ctx : γ) :
    Val × List ErrVal :=
  match validators with
  | [] => (value, [])
  | v :: rest =>
    match v value ctx with
    | .ok value' => run_validators value' rest ctx
    | .error e =>
      let r := run_validators value rest ctx
      (r.1, e :: r.2)

/-- `operator.attrgetter name`: attribute access, failing with
`AttributeError` on anything that is not an object with that attribute. -/
def attrget (name : String) : Val → Except PyErr Val
  | .obj attrs =>
    match dictGet attrs name with
    | some v => .ok v
    | Option.none => .error (.fault "AttributeError")
  | _ => .error (.fault "AttributeError")

/-- The `attr_getter` preset by `dict_field`: `fun d => d.get name`, failing
with `AttributeError` when `d` is not a mapping. -/
def dictAttrGet (name : String) : Val → Except PyErr Val
  | .dict d => .ok (pyGet d name)
  | _ => .error (.fault "AttributeError")

/-- The inner `_validate` closure of `field`: run the validator chain and
raise a mapping from the supplied field key to the collected error list when
any validator failed. -/
def _validate (validators : List (Validator γ)) (fkey : EKey) (value : Val)
    (ctx : γ) : Except ErrMap Val :=
  let r := run_validators value validators ctx
  if r.2.isEmpty then .ok r.1
  else .error [(fkey, ErrVal.vlist r.2)]

/-- The `for i, v in enumerate(value)` loop of `field.deserialize` in
`multiple` mode: successful elements are appended to `new_value`, each failed
element's `(index : errors)` mapping is merged into the error dict. -/
def multiLoop (validators : List (Validator γ)) (ctx : γ) :
    Nat → List Val → List Val → ErrMap → List Val × ErrMap
  | _, [], acc, errs => (acc, errs)
  | i, x :: rest, acc, errs =>
    match _validate validators (EKey.idx i) x ctx with
    | .ok w => multiLoop validators ctx (i + 1) rest (acc ++ [w]) errs
    | .error e => multiLoop validators ctx (i + 1) rest acc (dictUpdate errs e)

/-- `field` from the source.  `tfOpt` models the optional `target_field`
argument (`none` = Python `None`, defaulting to `source_field`); `agOpt`
models the optional `attr_getter` override. -/
def field (source_field : String) (tfOpt : Option String)
    (validators : List (Validator γ)) (multiple : Bool)
    (agOpt : Option (Val → Except PyErr Val)) (formatters : List (Formatter γ)) :
    Translator γ :=
  let target_field := tfOpt.getD source_field
  let attr_getter := agOpt.getD (attrget source_field)
  { serialize := fun source target ctx =>
      match attr_getter source with
      | .error e => .error e
      | .ok value =>
        let value := formatters.foldl (fun v f => f v ctx) value
        .ok (dictSet target target_field value)
    deserialize := fun source target ctx =>
      let value := pyGet source target_field
      if multiple then
        match value.asList with
        | Option.none => (target, some (.fault "TypeError"))
        | some xs =>
          let r := multiLoop validators ctx 0 xs [] []
          if r.2.isEmpty then (dictSet target source_field (Val.list r.1), Option.none)
          else (target, some (.validation [(EKey.str target_field, ErrVal.vmap r.2)]))
      else
        match _validate validators (EKey.str target_field) value ctx with
        | .ok v => (dictSet target source_field v, Option.none)
        | .error e => (target, some (.validation e)) }

/-- `dict_field` from the source: `field` with `attr_getter` preset to a key
lookup on the source mapping. -/
def dict_field (source_field : String) (tfOpt : Option String)
    (validators : List (Validator γ)) (multiple : Bool)
    (formatters : List (Formatter γ)) : Translator γ :=
  field source_field tfOpt validators multiple (some (dictAttrGet source_field))
    formatters

/-- The `if validators: ... raise` prelude shared by `child.deserialize` and
`many.deserialize`: with a non-empty validator list, run the chain and raise
`(target_field : error list)` when any validator failed. -/
def preValidate (validators : List (Validator γ)) (target_field : String)
    (value : Val) (ctx : γ) : Except ErrMap Val :=
  if validators.isEmpty then .ok value
  else
    let r := run_validators value validators ctx
    if r.2.isEmpty then .ok r.1
    else .error [(EKey.str target_field, ErrVal.vlist r.2)]

/-- `child` from the source: a nested single sub-serializer. -/
def child (source_field : String) (tfOpt : Option String) (ser : Serializer γ)
    (validators : List (Validator γ)) (agOpt : Option (Val → Except PyErr Val)) :
    Translator γ :=
  let target_field := tfOpt.getD source_field
  let attr_getter := agOpt.getD (attrget source_field)
  { serialize := fun source target ctx =>
      match attr_getter source with
      | .error e => .error e
      | .ok sub =>
        match ser.serialize sub ctx with
        | .error e => .error e
        | .ok d => .ok (dictSet target target_field (Val.dict d))
    deserialize := fun source target ctx =>
      let sub := pyGet source target_field
      match preValidate validators target_field sub ctx with
      | .error e => (target, some (.validation e))
      | .ok sub' =>
        match sub'.asDict with
        | Option.none => (target, some (.fault "AttributeError"))
        | some d =>
          match ser.deserialize d ctx with
          | .ok out => (dictSet target source_field (Val.dict out), Option.none)
          | .error (.validation e) =>
            (target, some (.validation [(EKey.str target_field, ErrVal.vmap e)]))
          | .error (.fault m) => (target, some (.fault m)) }

/-- The list comprehension of `many.serialize`: map the sub-serializer over
every element, propagating the first non-validation failure. -/
def serManyList (ser : Serializer γ) (ctx : γ) : List Val → Except PyErr (List Val)
  | [] => .ok []
  | x :: rest =>
    match ser.serialize x ctx with
    | .error e => .error e
    | .ok d =>
      match serManyList ser ctx rest with
      | .error e => .error e
      | .ok ds => .ok (Val.dict d :: ds)

/-- The `for i in sub_source` loop of `many.deserialize`: successfully
deserialized elements are appended to the collector, each caught
`ValidationException` payload is appended to the error list, and any other
exception propagates. -/
def manyLoop (ser : Serializer γ) (ctx : γ) :
    List Val → Except String (List Val × List ErrMap)
  | [] => .ok ([], [])
  | x :: rest =>
    match x.asDict with
    | Option.none => .error "AttributeError"
    | some d =>
      match ser.deserialize d ctx with
      | .ok r =>
        match manyLoop ser ctx rest with
        | .error m => .error m
        | .ok (c, e) => .ok (Val.dict r :: c, e)
      | .error (.validation em) =>
        match manyLoop ser ctx rest with
        | .error m => .error m
        | .ok (c, e) => .ok (c, em :: e)
      | .error (.fault m) => .error m

/-- `many` from the source: a nested list of sub-serializers.  Note the
deserialize path writes the collector into `target` *before* checking for
per-element errors. -/
def many (source_field : String) (tfOpt : Option String) (ser : Serializer γ)
    (validators : List (Validator γ)) (agOpt : Option (Val → Except PyErr Val)) :
    Translator γ :=
  let target_field := tfOpt.getD source_field
  let attr_getter := agOpt.getD (attrget source_field)
  { serialize := fun source target ctx =>
      match attr_getter source with
      | .error e => .error e
      | .ok sub =>
        match sub.asList with
        | Option.none => .error (.fault "TypeError")
        | some xs =>
          match serManyList ser ctx xs with
          | .error e => .error e
          | .ok ds => .ok (dictSet target target_field (Val.list ds))
    deserialize := fun source target ctx =>
      let sub := pyGetD source target_field (Val.list [])
      match preValidate validators target_field sub ctx with
      | .error e => (target, some (.validation e))
      | .ok sub' =>
        match sub'.asList with
        | Option.none => (target, some (.fault "TypeError"))
        | some xs =>
          match manyLoop ser ctx xs with
          | .error m => (target, some (.fault m))
          | .ok (collector, errs) =>
            let target' := dictSet target source_field (Val.list collector)
            if errs.isEmpty then (target', Option.none)
            else (target', some (.validation
              [(EKey.str target_field, ErrVal.vlist (errs.map ErrVal.vmap))])) }

/-- The field loop of `serializer.serialize`: run every field's serialize
against the shared target, propagating any raised exception. -/
def serLoopS (source : Val) (ctx : γ) : List (Translator γ) → Dict → Except PyErr Dict
  | [], target => .ok target
  | f :: rest, target =>
    match f.serialize source target ctx with
    | .error e => .error e
    | .ok target' => serLoopS source ctx rest target'

/-- The field loop of `serializer.deserialize`: run every field's deserialize
against the shared target, merging each caught `ValidationException` mapping
into the aggregate with dict-update semantics; any other exception
propagates. -/
def serLoopD (source : Dict) (ctx : γ) :
    List (Translator γ) → Dict → ErrMap → Except String (Dict × ErrMap)
  | [], target, errs => .ok (target, errs)
  | f :: rest, target, errs =>
    match f.deserialize source target ctx with
    | (target', Option.none) => serLoopD source ctx rest target' errs
    | (target', some (.validation e)) =>
      serLoopD source ctx rest target' (dictUpdate errs e)
    | (_, some (.fault m)) => .error m

/-- `serializer` from the source: the record builder. -/
def serializer (fields : List (Translator γ)) : Serializer γ :=
  { serialize := fun source ctx => serLoopS source ctx fields []
    deserialize := fun source ctx =>
      match serLoopD source ctx fields [] [] with
      | .error m => .error (.fault m)
      | .ok (target, errs) =>
        if errs.isEmpty then .ok target
        else .error (.validation errs) }

/-! ## Spec-side definitions

These definitions transcribe the *spec's* description of the behaviour, to be
compared with the source-translated definitions above. -/

/-- Spec-side single step of the validator-chain runner, following §4.1: each
validator is applied to the running value; on success its return value feeds
the next validator, on failure the error is recorded and the value stands as
it was before that validator ran. -/
def specChainStep (ctx : γ) (s : Val × List ErrVal) (v : Validator γ) :
    Val × List ErrVal :=
  match v s.1 ctx with
  | .ok w => (w, s.2)
  | .error e => (s.1, s.2 ++ [e])

/-- Spec-side per-index error mapping of a `multiple` field: an entry, keyed
by the element's index, for exactly the elements whose validator chain
failed. -/
def specMultiErrors (validators : List (Validator γ)) (ctx : γ) :
    Nat → List Val → ErrMap
  | _, [] => []
  | i, x :: rest =>
    let r := run_validators x validators ctx
    if r.2.isEmpty then specMultiErrors validators ctx (i + 1) rest
    else (EKey.idx i, ErrVal.vlist r.2) :: specMultiErrors validators ctx (i + 1) rest

/-- Spec-side list of successfully validated elements of a `multiple`
field, in input order. -/
def specMultiOks (validators : List (Validator γ)) (ctx : γ) : List Val → List Val
  | [] => []
  | x :: rest =>
    let r := run_validators x validators ctx
    if r.2.isEmpty then r.1 :: specMultiOks validators ctx rest
    else specMultiOks validators ctx rest

/-- Spec-side list of successfully deserialized elements of a `many` field,
given the per-element outcomes of the sub-serializer. -/
def specManyOks (os : List (Except ErrMap Dict)) : List Val :=
  os.filterMap (fun o =>
    match o with
    | .ok r => some (Val.dict r)
    | .error _ => Option.none)

/-- Spec-side list of per-element error mappings of a `many` field, in input
order, given the per-element outcomes of the sub-serializer. -/
def specManyErrs (os : List (Except ErrMap Dict)) : List ErrMap :=
  os.filterMap (fun o =>
    match o with
    | .ok _ => Option.none
    | .error e => some e)

/-- The element `x` of a `many` field's input list is a mapping on which the
sub-serializer produces outcome `o` (a result dict or a raised validation
mapping). -/
def elemOutcome (ser : Serializer γ) (ctx : γ) (x : Val)
    (o : Except ErrMap Dict) : Prop :=
  ∃ d, x = Val.dict d ∧
    ser.deserialize d ctx =
      (match o with
       | .ok r => .ok r
       | .error e => .error (.validation e))

/-- Python `dict` equality: the two mappings agree on every key. -/
def dictEqv (d1 d2 : Dict) : Prop := ∀ k, dictGet d1 k = dictGet d2 k

/-! ## Concrete material for witnesses -/

/-- A validator that always fails with the given message. -/
def failWith (s : String) : Validator Unit := fun _ _ => .error (ErrVal.msg s)

/-- A validator that rejects even integers with the message `"even"` and
passes everything else through unchanged. -/
def rejectEven : Validator Unit := fun v _ =>
  match v with
  | .int n => if n % 2 = 0 then .error (ErrVal.msg "even") else .ok (.int n)
  | w => .ok w

/-- A one-field sub-serializer whose field `v` rejects even integers. -/
def subSer : Serializer Unit :=
  serializer [field "v" Option.none [rejectEven] false Option.none []]

/-- A one-field sub-serializer whose field `q` always rejects. -/
def failSer : Serializer Unit :=
  serializer [field "q" Option.none [failWith "no"] false Option.none []]

/-! ## Helper lemmas -/

theorem listIsEmptyFalse {α : Type} {l : List α} (h : l ≠ []) : l.isEmpty = false := by
  cases l with
  | nil => exact absurd rfl h
  | cons a l => rfl

theorem listIsEmptyTrue {α : Type} {l : List α} (h : l = []) : l.isEmpty = true := by
  subst h; rfl

theorem run_validators_foldl_aux (validators : List (Validator γ)) :
    ∀ (value : Val) (errs : List ErrVal) (ctx : γ),
      validators.foldl (specChainStep ctx) (value, errs) =
        ((run_validators value validators ctx).1,
          errs ++ (run_validators value validators ctx).2) := by
  induction validators with
  | nil => intro value errs ctx; simp [run_validators]
  | cons v rest ih =>
    intro value errs ctx
    rw [List.foldl_cons]
    cases h : v value ctx with
    | ok w =>
      have hs : specChainStep ctx (value, errs) v = (w, errs) := by
        simp [specChainStep, h]
      rw [hs, ih, run_validators]
      simp only [h]
    | error e =>
      have hs : specChainStep ctx (value, errs) v = (value, errs ++ [e]) := by
        simp [specChainStep, h]
      rw [hs, ih, run_validators]
      simp only [h]
      simp

/-- C2: the validator-chain runner applies each validator in order feeding
each validator's return value to the next; when a validator raises, the
runner records that error and continues the chain with the value as it stood
before that validator ran; it returns the pair `(final_value, errors)`, so
when no validator fails the error list is empty and the final value is the
fully transformed one.  This is stated as equality with a left fold of the
spec-side chain step starting from an empty error list. -/
theorem run_validators_spec (value : Val) (validators : List (Validator γ)) (ctx : γ) :
    run_validators value validators ctx =
      validators.foldl (specChainStep ctx) (value, []) := by
  rw [run_validators_foldl_aux]
  simp

theorem serLoopD_outcomes (source : Dict) (ctx : γ)
    {fields : List (Translator γ)} {os : List (Option ErrMap)}
    (h : List.Forall₂
      (fun f o => ∀ t, (Translator.deserialize f source t ctx).2 =
        Option.map PyErr.validation o) fields os) :
    ∀ (target : Dict) (errs : ErrMap),
      ∃ t', serLoopD source ctx fields target errs =
        .ok (t', (os.filterMap id).foldl dictUpdate errs) := by
  induction h with
  | nil => intro target errs; exact ⟨target, rfl⟩
  | @cons f o fs os' hf hrest ih =>
    intro target errs
    have hp := hf target
    rcases hd : Translator.deserialize f source target ctx with ⟨t1, e1⟩
    rw [hd] at hp
    simp only at hp
    subst hp
    cases o with
    | none =>
      rw [Option.map_none'] at hd
      obtain ⟨t', ht'⟩ := ih t1 errs
      refine ⟨t', ?_⟩
      rw [serLoopD, hd]
      exact ht'
    | some e =>
      rw [Option.map_some'] at hd
      obtain ⟨t', ht'⟩ := ih t1 (dictUpdate errs e)
      refine ⟨t', ?_⟩
      rw [serLoopD, hd]
      exact ht'

theorem serLoopD_allOk (source : Dict) (ctx : γ)
    {fields : List (Translator γ)} {gs : List (Dict → Dict)}
    (h : List.Forall₂
      (fun f g => ∀ t, Translator.deserialize f source t ctx = (g t, Option.none))
      fields gs) :
    ∀ (target : Dict) (errs : ErrMap),
      serLoopD source ctx fields target errs =
        .ok (gs.foldl (fun t g => g t) target, errs) := by
  induction h with
  | nil => intro target errs; rfl
  | @cons f g fs gs' hf hrest ih =>
    intro target errs
    rw [serLoopD, hf target]
    exact ih (g target) errs

/-- C1: the record builder's deserialize runs every field even when an
earlier field raised — the fields of a record may succeed or fail in any
mixture, each field's outcome being either success or a raised validation
mapping; each raised mapping is merged into one aggregate mapping by dict
update, and after all fields have run it raises a single validation error
carrying the full aggregate if any field failed (the witness instantiates
this with three always-failing scalar fields, the payload containing all
three field keys, and with a mixed record of passing and failing fields);
when every field succeeds it returns the target populated by the fields in
order. -/
theorem serializer_deserialize_collects_all_errors {γ : Type} :
    (∀ (fields : List (Translator γ)) (os : List (Option ErrMap)) (source : Dict)
        (ctx : γ),
      List.Forall₂
        (fun f o => ∀ t, (Translator.deserialize f source t ctx).2 =
          Option.map PyErr.validation o) fields os →
      (os.filterMap id).foldl dictUpdate [] ≠ [] →
      (serializer fields).deserialize source ctx =
        .error (.validation ((os.filterMap id).foldl dictUpdate []))) ∧
    (∀ (fields : List (Translator γ)) (gs : List (Dict → Dict)) (source : Dict) (ctx : γ),
      List.Forall₂
        (fun f g => ∀ t, Translator.deserialize f source t ctx = (g t, Option.none))
        fields gs →
      (serializer fields).deserialize source ctx =
        .ok (gs.foldl (fun t g => g t) [])) := by
  constructor
  · intro fields os source ctx h hne
    obtain ⟨t', ht'⟩ := serLoopD_outcomes source ctx h [] []
    show (match serLoopD source ctx fields [] [] with
      | .error m => .error (.fault m)
      | .ok (target, errs) =>
        if errs.isEmpty then .ok target else .error (.validation errs)) =
      (.error (.validation ((os.filterMap id).foldl dictUpdate [])) : Except PyErr Dict)
    rw [ht']
    simp [listIsEmptyFalse hne]
  · intro fields gs source ctx h
    have ht := serLoopD_allOk source ctx h [] []
    show (match serLoopD source ctx fields [] [] with
      | .error m => .error (.fault m)
      | .ok (target, errs) =>
        if errs.isEmpty then .ok target else .error (.validation errs)) =
      (.ok (gs.foldl (fun t g => g t) []) : Except PyErr Dict)
    rw [ht]
    rfl

/-- Witness for C1: a record of three scalar fields whose validators always
fail raises one validation error whose payload contains all three field
keys; and a mixed record — a failing field, a passing field, a failing
field — raises one validation error carrying both failing fields' keys. -/
theorem serializer_deserialize_collects_all_errors_witness :
    ((serializer [field "a" Option.none [failWith "bad a"] false Option.none [],
                  field "b" Option.none [failWith "bad b"] false Option.none [],
                  field "c" Option.none [failWith "bad c"] false Option.none
                    []]).deserialize [] () =
      .error (.validation
        [(EKey.str "a", ErrVal.vlist [ErrVal.msg "bad a"]),
         (EKey.str "b", ErrVal.vlist [ErrVal.msg "bad b"]),
         (EKey.str "c", ErrVal.vlist [ErrVal.msg "bad c"])])) ∧
    ((serializer [field "p" Option.none [failWith "bad p"] false Option.none [],
                  field "q" Option.none [] false Option.none [],
                  field "r" Option.none [failWith "bad r"] false Option.none
                    []]).deserialize [] () =
      .error (.validation
        [(EKey.str "p", ErrVal.vlist [ErrVal.msg "bad p"]),
         (EKey.str "r", ErrVal.vlist [ErrVal.msg "bad r"])])) := by
  constructor
  · have h := serializer_deserialize_collects_all_errors.1
      [field "a" Option.none [failWith "bad a"] false Option.none [],
       field "b" Option.none [failWith "bad b"] false Option.none [],
       field "c" Option.none [failWith "bad c"] false Option.none []]
      [some [(EKey.str "a", ErrVal.vlist [ErrVal.msg "bad a"])],
       some [(EKey.str "b", ErrVal.vlist [ErrVal.msg "bad b"])],
       some [(EKey.str "c", ErrVal.vlist [ErrVal.msg "bad c"])]]
      [] ()
      (List.Forall₂.cons (fun _ => rfl)
        (List.Forall₂.cons (fun _ => rfl)
          (List.Forall₂.cons (fun _ => rfl) List.Forall₂.nil)))
      (fun hcontra => nomatch hcontra)
    exact h.trans rfl
  · have h := serializer_deserialize_collects_all_errors.1
      [field "p" Option.none [failWith "bad p"] false Option.none [],
       field "q" Option.none [] false Option.none [],
       field "r" Option.none [failWith "bad r"] false Option.none []]
      [some [(EKey.str "p", ErrVal.vlist [ErrVal.msg "bad p"])],
       Option.none,
       some [(EKey.str "r", ErrVal.vlist [ErrVal.msg "bad r"])]]
      [] ()
      (List.Forall₂.cons (fun _ => rfl)
        (List.Forall₂.cons (fun _ => rfl)
          (List.Forall₂.cons (fun _ => rfl) List.Forall₂.nil)))
      (fun hcontra => nomatch hcontra)
    exact h.trans rfl

theorem dictSet_fresh {α β : Type} [DecidableEq α] :
    ∀ (d : List (α × β)) (k : α) (v : β), (∀ p ∈ d, p.1 ≠ k) →
      dictSet d k v = d ++ [(k, v)] := by
  intro d
  induction d with
  | nil => intro k v _; rfl
  | cons p rest ih =>
    intro k v h
    rcases p with ⟨k', v'⟩
    have hk : k' ≠ k := h (k', v') (List.mem_cons_self _ _)
    rw [dictSet, if_neg hk, List.cons_append, ih k v
      (fun q hq => h q (List.mem_cons_of_mem _ hq))]

theorem dictUpdate_single {α β : Type} [DecidableEq α] (d : List (α × β)) (k : α) (v : β) :
    dictUpdate d [(k, v)] = dictSet d k v := rfl

theorem multiLoop_spec (validators : List (Validator γ)) (ctx : γ) :
    ∀ (xs : List Val) (i : Nat) (acc : List Val) (errs : ErrMap),
      (∀ p ∈ errs, ∃ j, p.1 = EKey.idx j ∧ j < i) →
      multiLoop validators ctx i xs acc errs =
        (acc ++ specMultiOks validators ctx xs,
         errs ++ specMultiErrors validators ctx i xs) := by
  intro xs
  induction xs with
  | nil =>
    intro i acc errs _
    simp [multiLoop, specMultiOks, specMultiErrors]
  | cons x rest ih =>
    intro i acc errs hinv
    by_cases h : (run_validators x validators ctx).2.isEmpty
    · have hv : _validate validators (EKey.idx i) x ctx =
          .ok (run_validators x validators ctx).1 := by
        simp [_validate, h]
      have hstep : multiLoop validators ctx i (x :: rest) acc errs =
          multiLoop validators ctx (i + 1) rest
            (acc ++ [(run_validators x validators ctx).1]) errs := by
        simp [multiLoop, hv]
      have hoks : specMultiOks validators ctx (x :: rest) =
          (run_validators x validators ctx).1 :: specMultiOks validators ctx rest := by
        simp [specMultiOks, h]
      have herrs : specMultiErrors validators ctx i (x :: rest) =
          specMultiErrors validators ctx (i + 1) rest := by
        simp [specMultiErrors, h]
      rw [hstep, ih (i + 1) (acc ++ [(run_validators x validators ctx).1]) errs
        (fun p hp => by
          obtain ⟨j, hj1, hj2⟩ := hinv p hp
          exact ⟨j, hj1, Nat.lt_succ_of_lt hj2⟩), hoks, herrs]
      simp
    · have hv : _validate validators (EKey.idx i) x ctx =
          .error [(EKey.idx i, ErrVal.vlist (run_validators x validators ctx).2)] := by
        simp [_validate, h]
      have hfresh : dictUpdate errs
          [(EKey.idx i, ErrVal.vlist (run_validators x validators ctx).2)] =
          errs ++ [(EKey.idx i, ErrVal.vlist (run_validators x validators ctx).2)] := by
        rw [dictUpdate_single]
        refine dictSet_fresh errs _ _ (fun p hp => ?_)
        obtain ⟨j, hj1, hj2⟩ := hinv p hp
        rw [hj1]
        intro hcontra
        have hji : j = i := by injection hcontra
        omega
      have hstep : multiLoop validators ctx i (x :: rest) acc errs =
          multiLoop validators ctx (i + 1) rest acc
            (errs ++ [(EKey.idx i, ErrVal.vlist (run_validators x validators ctx).2)]) := by
        simp [multiLoop, hv, hfresh]
      have hoks : specMultiOks validators ctx (x :: rest) =
          specMultiOks validators ctx rest := by
        simp [specMultiOks, h]
      have herrs : specMultiErrors validators ctx i (x :: rest) =
          (EKey.idx i, ErrVal.vlist (run_validators x validators ctx).2) ::
            specMultiErrors validators ctx (i + 1) rest := by
        simp [specMultiErrors, h]
      rw [hstep, ih (i + 1) acc
        (errs ++ [(EKey.idx i, ErrVal.vlist (run_validators x validators ctx).2)])
        (fun p hp => by
          rcases List.mem_append.1 hp with hp1 | hp2
          · obtain ⟨j, hj1, hj2⟩ := hinv p hp1
            exact ⟨j, hj1, Nat.lt_succ_of_lt hj2⟩
          · have hpe : p = (EKey.idx i, ErrVal.vlist (run_validators x validators ctx).2) :=
              List.mem_singleton.1 hp2
            exact ⟨i, by rw [hpe], Nat.lt_succ_self i⟩), hoks, herrs]
      simp

/-- C3: a `multiple` scalar field whose source value under `target_field` is
a list validates each element independently through the validator-chain
runner, collects per-index errors into a mapping keyed by the element's index
containing exactly the failing indices, and when at least one element fails
it raises a validation error keyed by `target_field` wrapping that per-index
mapping without writing anything into `target`; when no element fails it
writes the validated list into `target` under `source_field`. -/
theorem field_multiple_deserialize_per_index (source_field : String)
    (tfOpt : Option String) (validators : List (Validator γ)) (xs : List Val)
    (source target : Dict) (ctx : γ)
    (h : pyGet source (tfOpt.getD source_field) = Val.list xs) :
    (field source_field tfOpt validators true Option.none []).deserialize
        source target ctx =
      if (specMultiErrors validators ctx 0 xs).isEmpty then
        (dictSet target source_field (Val.list (specMultiOks validators ctx xs)),
         Option.none)
      else
        (target, some (PyErr.validation
          [(EKey.str (tfOpt.getD source_field),
            ErrVal.vmap (specMultiErrors validators ctx 0 xs))])) := by
  have hml := multiLoop_spec validators ctx xs 0 [] []
    (fun p hp => absurd hp (List.not_mem_nil p))
  simp only [field, h, Val.asList, if_true]
  rw [hml]
  simp

/-- Witness for C3: a `multiple` field over `[1, 2, 3]` with a validator
rejecting even numbers raises an error keyed by the field name whose payload
maps index 1 to the rejection reason and has no entries for indices 0 or 2;
the target is untouched. -/
theorem field_multiple_deserialize_per_index_witness :
    (field "xs" Option.none [rejectEven] true Option.none []).deserialize
        [("xs", Val.list [Val.int 1, Val.int 2, Val.int 3])] [("kept", Val.int 9)] () =
      ([("kept", Val.int 9)],
       some (PyErr.validation [(EKey.str "xs",
         ErrVal.vmap [(EKey.idx 1, ErrVal.vlist [ErrVal.msg "even"])])])) := by
  have h := field_multiple_deserialize_per_index "xs" Option.none [rejectEven]
    [Val.int 1, Val.int 2, Val.int 3]
    [("xs", Val.list [Val.int 1, Val.int 2, Val.int 3])] [("kept", Val.int 9)] () rfl
  exact h.trans rfl

theorem preValidate_of_noErrors {validators : List (Validator γ)} {value : Val}
    {ctx : γ} (target_field : String)
    (h : (run_validators value validators ctx).2 = []) :
    preValidate validators target_field value ctx =
      .ok (run_validators value validators ctx).1 := by
  cases validators with
  | nil => rfl
  | cons v rest =>
    simp [preValidate, h]

theorem preValidate_of_errors {validators : List (Validator γ)} {value : Val}
    {ctx : γ} (target_field : String)
    (h : (run_validators value validators ctx).2 ≠ []) :
    preValidate validators target_field value ctx =
      .error [(EKey.str target_field,
        ErrVal.vlist (run_validators value validators ctx).2)] := by
  cases validators with
  | nil => exact absurd rfl h
  | cons v rest =>
    simp [preValidate, listIsEmptyFalse h]

/-- C4: a nested single `child` runs its pre-validators on the raw sub-value
before any delegation; if they fail it raises a validation error keyed by
`target_field` whose result does not depend on the sub-Translator at all (so
the sub-Translator is never invoked); otherwise it delegates to the
sub-Translator's deserialize and, when that raises a validation error,
re-raises it re-keyed under `target_field` with the sub-Translator's mapping
nested one level deeper; on success it writes the sub-Translator's result
into `target` under `source_field`. -/
theorem child_deserialize_spec {γ : Type} :
    (∀ (source_field : String) (tfOpt : Option String) (ser : Serializer γ)
        (validators : List (Validator γ)) (source target : Dict) (ctx : γ),
      (run_validators (pyGet source (tfOpt.getD source_field)) validators ctx).2 ≠ [] →
      (child source_field tfOpt ser validators Option.none).deserialize
          source target ctx =
        (target, some (PyErr.validation [(EKey.str (tfOpt.getD source_field),
          ErrVal.vlist
            (run_validators (pyGet source (tfOpt.getD source_field))
              validators ctx).2)]))) ∧
    (∀ (source_field : String) (tfOpt : Option String) (ser : Serializer γ)
        (validators : List (Validator γ)) (source target : Dict) (ctx : γ)
        (d : Dict) (e : ErrMap),
      (run_validators (pyGet source (tfOpt.getD source_field)) validators ctx).2 = [] →
      (run_validators (pyGet source (tfOpt.getD source_field)) validators ctx).1 =
        Val.dict d →
      ser.deserialize d ctx = .error (.validation e) →
      (child source_field tfOpt ser validators Option.none).deserialize
          source target ctx =
        (target, some (PyErr.validation
          [(EKey.str (tfOpt.getD source_field), ErrVal.vmap e)]))) ∧
    (∀ (source_field : String) (tfOpt : Option String) (ser : Serializer γ)
        (validators : List (Validator γ)) (source target : Dict) (ctx : γ)
        (d out : Dict),
      (run_validators (pyGet source (tfOpt.getD source_field)) validators ctx).2 = [] →
      (run_validators (pyGet source (tfOpt.getD source_field)) validators ctx).1 =
        Val.dict d →
      ser.deserialize d ctx = .ok out →
      (child source_field tfOpt ser validators Option.none).deserialize
          source target ctx =
        (dictSet target source_field (Val.dict out), Option.none)) := by
  refine ⟨?_, ?_, ?_⟩
  · intro source_field tfOpt ser validators source target ctx h
    simp [child, preValidate_of_errors (tfOpt.getD source_field) h]
  · intro source_field tfOpt ser validators source target ctx d e h1 h2 h3
    simp [child, preValidate_of_noErrors (tfOpt.getD source_field) h1, h2,
      Val.asDict, h3]
  · intro source_field tfOpt ser validators source target ctx d out h1 h2 h3
    simp [child, preValidate_of_noErrors (tfOpt.getD source_field) h1, h2,
      Val.asDict, h3]

/-- Witness for C4: a child whose sub-serializer rejects its field re-raises
the sub-error nested one level deeper under the child's key. -/
theorem child_deserialize_spec_witness :
    (child "k" Option.none failSer [] Option.none).deserialize
        [("k", Val.dict [])] [] () =
      ([], some (PyErr.validation [(EKey.str "k",
        ErrVal.vmap [(EKey.str "q", ErrVal.vlist [ErrVal.msg "no"])])])) :=
  child_deserialize_spec.2.1 "k" Option.none failSer [] [("k", Val.dict [])] [] ()
    [] [(EKey.str "q", ErrVal.vlist [ErrVal.msg "no"])] rfl rfl rfl

/-- C10: whenever the nested single `child`'s deserialize raises (pre-validator
failure, delegation failure, or any other fault), the target accumulator is
returned exactly as it was passed in — nothing is written on any error
path. -/
theorem child_error_leaves_target_unchanged (source_field : String)
    (tfOpt : Option String) (ser : Serializer γ) (validators : List (Validator γ))
    (agOpt : Option (Val → Except PyErr Val)) (source target : Dict) (ctx : γ)
    (t' : Dict) (err : PyErr)
    (h : (child source_field tfOpt ser validators agOpt).deserialize
        source target ctx = (t', some err)) :
    t' = target := by
  simp only [child] at h
  rcases hpv : preValidate validators (tfOpt.getD source_field)
      (pyGet source (tfOpt.getD source_field)) ctx with e | sub'
  · rw [hpv] at h
    simp at h
    exact h.1.symm
  · rw [hpv] at h
    simp only at h
    rcases hdd : sub'.asDict with _ | d
    · rw [hdd] at h
      simp at h
      exact h.1.symm
    · rw [hdd] at h
      simp only at h
      rcases hds : ser.deserialize d ctx with pe | out
      · rcases pe with e | m
        · rw [hds] at h
          simp at h
          exact h.1.symm
        · rw [hds] at h
          simp at h
          exact h.1.symm
      · rw [hds] at h
        simp at h

/-- Witness for C10: a concrete child whose delegation fails hands back the
target accumulator it was given. -/
theorem child_error_leaves_target_unchanged_witness :
    ([("z", Val.int 5)] : Dict) = [("z", Val.int 5)] :=
  child_error_leaves_target_unchanged "k" Option.none failSer [] Option.none
    [("k", Val.dict [])] [("z", Val.int 5)] () [("z", Val.int 5)]
    (PyErr.validation [(EKey.str "k",
      ErrVal.vmap [(EKey.str "q", ErrVal.vlist [ErrVal.msg "no"])])]) rfl

theorem manyLoop_spec (ser : Serializer γ) (ctx : γ)
    {xs : List Val} {os : List (Except ErrMap Dict)}
    (h : List.Forall₂ (elemOutcome ser ctx) xs os) :
    manyLoop ser ctx xs = .ok (specManyOks os, specManyErrs os) := by
  induction h with
  | nil => rfl
  | @cons x o rest os' hx hrest ih =>
    obtain ⟨d, hxd, hd⟩ := hx
    subst hxd
    cases o with
    | ok r =>
      simp only at hd
      simp [manyLoop, Val.asDict, hd, ih, specManyOks, specManyErrs]
    | error e =>
      simp only at hd
      simp [manyLoop, Val.asDict, hd, ih, specManyOks, specManyErrs]

/-- C5: when at least one element of a `many` field's input list is rejected
by the sub-serializer, deserialize writes the partial list of successfully
deserialized elements into `target` under `source_field` and simultaneously
raises the single validation error keyed by `target_field` whose payload is
the ordered list of per-element error mappings — the accumulator is left
partially populated for that field on this error path. -/
theorem many_deserialize_partial_write (source_field : String)
    (tfOpt : Option String) (ser : Serializer γ) (validators : List (Validator γ))
    (source target : Dict) (ctx : γ) (xs : List Val)
    (os : List (Except ErrMap Dict))
    (hv : (run_validators (pyGetD source (tfOpt.getD source_field) (Val.list []))
      validators ctx).2 = [])
    (hl : (run_validators (pyGetD source (tfOpt.getD source_field) (Val.list []))
      validators ctx).1 = Val.list xs)
    (ho : List.Forall₂ (elemOutcome ser ctx) xs os)
    (hne : specManyErrs os ≠ []) :
    (many source_field tfOpt ser validators Option.none).deserialize
        source target ctx =
      (dictSet target source_field (Val.list (specManyOks os)),
       some (PyErr.validation [(EKey.str (tfOpt.getD source_field),
         ErrVal.vlist ((specManyErrs os).map ErrVal.vmap))])) := by
  simp [many, preValidate_of_noErrors (tfOpt.getD source_field) hv, hl,
    Val.asList, manyLoop_spec ser ctx ho, listIsEmptyFalse hne]

/-- Witness for C5: a `many` field over three sub-records whose middle
element is rejected writes the two successful records into the target and
raises with the single per-element error payload. -/
theorem many_deserialize_partial_write_witness :
    (many "nums" Option.none subSer [] Option.none).deserialize
        [("nums", Val.list
          [Val.dict [("v", Val.int 1)], Val.dict [("v", Val.int 2)],
           Val.dict [("v", Val.int 3)]])] [] () =
      ([("nums", Val.list [Val.dict [("v", Val.int 1)], Val.dict [("v", Val.int 3)]])],
       some (PyErr.validation [(EKey.str "nums",
         ErrVal.vlist [ErrVal.vmap [(EKey.str "v",
           ErrVal.vlist [ErrVal.msg "even"])]])])) := by
  have h := many_deserialize_partial_write "nums" Option.none subSer []
    [("nums", Val.list
      [Val.dict [("v", Val.int 1)], Val.dict [("v", Val.int 2)],
       Val.dict [("v", Val.int 3)]])] [] ()
    [Val.dict [("v", Val.int 1)], Val.dict [("v", Val.int 2)],
     Val.dict [("v", Val.int 3)]]
    [.ok [("v", Val.int 1)],
     .error [(EKey.str "v", ErrVal.vlist [ErrVal.msg "even"])],
     .ok [("v", Val.int 3)]]
    rfl rfl
    (List.Forall₂.cons ⟨[("v", Val.int 1)], rfl, rfl⟩
      (List.Forall₂.cons ⟨[("v", Val.int 2)], rfl, rfl⟩
        (List.Forall₂.cons ⟨[("v", Val.int 3)], rfl, rfl⟩ List.Forall₂.nil)))
    (fun hcontra => nomatch hcontra)
  exact h.trans rfl

theorem dictUpdate_append {α β : Type} [DecidableEq α] :
    ∀ (upd d : List (α × β)), (∀ p ∈ upd, ∀ q ∈ d, p.1 ≠ q.1) →
      (upd.map Prod.fst).Nodup → dictUpdate d upd = d ++ upd := by
  intro upd
  induction upd with
  | nil => intro d _ _; simp [dictUpdate]
  | cons p rest ih =>
    intro d hfresh hnd
    have h1 : dictUpdate d (p :: rest) = dictUpdate (dictSet d p.1 p.2) rest := rfl
    have h2 : dictSet d p.1 p.2 = d ++ [p] := by
      refine dictSet_fresh d p.1 p.2 (fun q hq hc => ?_)
      exact (hfresh p (List.mem_cons_self _ _) q hq) hc.symm
    rw [h1, h2, ih (d ++ [p])
      (fun r hr q hq => by
        rcases List.mem_append.1 hq with hq1 | hq2
        · exact hfresh r (List.mem_cons_of_mem _ hr) q hq1
        · have hqe : q = p := List.mem_singleton.1 hq2
          subst hqe
          have hmem : r.1 ∈ rest.map Prod.fst := List.mem_map_of_mem _ hr
          rw [List.map_cons] at hnd
          exact fun hc => (List.Nodup.not_mem hnd) (hc ▸ hmem))
      (by rw [List.map_cons] at hnd; exact hnd.of_cons)]
    simp

/-- C6: a `many` field whose sub-serializer rejects exactly the element at
index 1 of a 3-element input list raises a validation error keyed by the
field's target key whose payload contains exactly one entry — the error
mapping the sub-serializer produced for the index-1 element — and when that
`many` field is composed into a record builder alongside another failing
top-level field, the single aggregate error raised by the record builder
contains both the `many` field's error and the other field's error. -/
theorem many_index_failure_and_record_aggregation (source_field : String)
    (tfOpt : Option String) (ser : Serializer γ) (g : Translator γ)
    (source : Dict) (ctx : γ) (d0 d1 d2 r0 r2 : Dict) (e1 eg : ErrMap)
    (h0 : ser.deserialize d0 ctx = .ok r0)
    (h1 : ser.deserialize d1 ctx = .error (.validation e1))
    (h2 : ser.deserialize d2 ctx = .ok r2)
    (hsrc : pyGetD source (tfOpt.getD source_field) (Val.list []) =
      Val.list [Val.dict d0, Val.dict d1, Val.dict d2])
    (hg : ∀ t, Translator.deserialize g source t ctx =
      (t, some (PyErr.validation eg)))
    (hkeys : ∀ p ∈ eg, p.1 ≠ EKey.str (tfOpt.getD source_field))
    (hnd : (eg.map Prod.fst).Nodup) :
    (∀ target, (many source_field tfOpt ser [] Option.none).deserialize
        source target ctx =
      (dictSet target source_field (Val.list [Val.dict r0, Val.dict r2]),
       some (PyErr.validation [(EKey.str (tfOpt.getD source_field),
         ErrVal.vlist [ErrVal.vmap e1])]))) ∧
    (serializer [many source_field tfOpt ser [] Option.none, g]).deserialize
        source ctx =
      .error (.validation ((EKey.str (tfOpt.getD source_field),
        ErrVal.vlist [ErrVal.vmap e1]) :: eg)) := by
  have hml : manyLoop ser ctx [Val.dict d0, Val.dict d1, Val.dict d2] =
      .ok ([Val.dict r0, Val.dict r2], [e1]) := by
    have hf : List.Forall₂ (elemOutcome ser ctx)
        [Val.dict d0, Val.dict d1, Val.dict d2]
        [.ok r0, .error e1, .ok r2] :=
      List.Forall₂.cons ⟨d0, rfl, h0⟩
        (List.Forall₂.cons ⟨d1, rfl, h1⟩
          (List.Forall₂.cons ⟨d2, rfl, h2⟩ List.Forall₂.nil))
    exact (manyLoop_spec ser ctx hf).trans rfl
  have ha : ∀ target, (many source_field tfOpt ser [] Option.none).deserialize
      source target ctx =
    (dictSet target source_field (Val.list [Val.dict r0, Val.dict r2]),
     some (PyErr.validation [(EKey.str (tfOpt.getD source_field),
       ErrVal.vlist [ErrVal.vmap e1])])) := by
    intro target
    simp [many, preValidate, hsrc, Val.asList, hml]
  refine ⟨ha, ?_⟩
  have hupd : dictUpdate
      (dictUpdate ([] : ErrMap)
        [(EKey.str (tfOpt.getD source_field), ErrVal.vlist [ErrVal.vmap e1])]) eg =
      (EKey.str (tfOpt.getD source_field), ErrVal.vlist [ErrVal.vmap e1]) :: eg := by
    have hone : dictUpdate ([] : ErrMap)
        [(EKey.str (tfOpt.getD source_field), ErrVal.vlist [ErrVal.vmap e1])] =
        [(EKey.str (tfOpt.getD source_field), ErrVal.vlist [ErrVal.vmap e1])] := rfl
    rw [hone]
    have := dictUpdate_append eg
      [(EKey.str (tfOpt.getD source_field), ErrVal.vlist [ErrVal.vmap e1])]
      (fun p hp q hq => by
        have hqe : q = (EKey.str (tfOpt.getD source_field),
          ErrVal.vlist [ErrVal.vmap e1]) := List.mem_singleton.1 hq
        subst hqe
        exact hkeys p hp) hnd
    simpa using this
  have hld : serLoopD source ctx
      [many source_field tfOpt ser [] Option.none, g] [] [] =
      .ok (dictSet [] source_field (Val.list [Val.dict r0, Val.dict r2]),
        (EKey.str (tfOpt.getD source_field),
          ErrVal.vlist [ErrVal.vmap e1]) :: eg) := by
    simp only [serLoopD, ha [], hg]
    rw [hupd]
  simp [serializer, hld]

/-- Witness for C6: concrete three-element input whose middle record is
rejected, composed with an always-failing sibling field; the many-level
payload has exactly one entry and the record-level aggregate carries both
fields' errors. -/
theorem many_index_failure_and_record_aggregation_witness :
    (∀ target, (many "nums" Option.none subSer [] Option.none).deserialize
        [("nums", Val.list [Val.dict [("v", Val.int 1)], Val.dict [("v", Val.int 2)],
          Val.dict [("v", Val.int 3)]]),
         ("w", Val.int 0)] target () =
      (dictSet target "nums" (Val.list
        [Val.dict [("v", Val.int 1)], Val.dict [("v", Val.int 3)]]),
       some (PyErr.validation [(EKey.str "nums",
         ErrVal.vlist [ErrVal.vmap [(EKey.str "v",
           ErrVal.vlist [ErrVal.msg "even"])]])]))) ∧
    (serializer [many "nums" Option.none subSer [] Option.none,
      field "w" Option.none [failWith "bad w"] false Option.none []]).deserialize
        [("nums", Val.list [Val.dict [("v", Val.int 1)], Val.dict [("v", Val.int 2)],
          Val.dict [("v", Val.int 3)]]),
         ("w", Val.int 0)] () =
      .error (.validation
        [(EKey.str "nums", ErrVal.vlist [ErrVal.vmap [(EKey.str "v",
           ErrVal.vlist [ErrVal.msg "even"])]]),
         (EKey.str "w", ErrVal.vlist [ErrVal.msg "bad w"])]) :=
  many_index_failure_and_record_aggregation "nums" Option.none subSer
    (field "w" Option.none [failWith "bad w"] false Option.none [])
    [("nums", Val.list [Val.dict [("v", Val.int 1)], Val.dict [("v", Val.int 2)],
      Val.dict [("v", Val.int 3)]]),
     ("w", Val.int 0)] ()
    [("v", Val.int 1)] [("v", Val.int 2)] [("v", Val.int 3)]
    [("v", Val.int 1)] [("v", Val.int 3)]
    [(EKey.str "v", ErrVal.vlist [ErrVal.msg "even"])]
    [(EKey.str "w", ErrVal.vlist [ErrVal.msg "bad w"])]
    rfl rfl rfl rfl (fun t => rfl)
    (by
      intro p hp
      have hpe := List.mem_singleton.1 hp
      subst hpe
      decide)
    (by decide)

/-- Counterexample for C7: a `multiple=True` scalar field whose source is
missing the key `target_field` gets the value `None`, which is not iterable,
so deserialization raises a `TypeError` — a non-validation error — refuting
the claim that the field raises only validation errors in both modes. -/
theorem field_multiple_missing_key_fault :
    (field "a" Option.none ([] : List (Validator Unit)) true Option.none
      []).deserialize [] [] () =
      ([], some (PyErr.fault "TypeError")) := rfl

/-- C7 (amended): a scalar field's deserialize raises only validation
errors in `multiple=False` mode — a missing key yields `None` (absence)
rather than any other error kind, validators alone enforcing required-ness —
and in `multiple=True` mode the same holds whenever the value under
`target_field` is a list; with `multiple=True` a missing key yields `None`,
which is not iterable, and raises a non-validation `TypeError`. -/
theorem field_deserialize_only_validation_errors {γ : Type} :
    (∀ (source_field : String) (tfOpt : Option String)
        (validators : List (Validator γ)) (agOpt : Option (Val → Except PyErr Val))
        (formatters : List (Formatter γ)) (source target : Dict) (ctx : γ)
        (m : String),
      ((field source_field tfOpt validators false agOpt formatters).deserialize
          source target ctx).2 ≠ some (PyErr.fault m)) ∧
    (∀ (source_field : String) (tfOpt : Option String)
        (validators : List (Validator γ)) (agOpt : Option (Val → Except PyErr Val))
        (formatters : List (Formatter γ)) (source target : Dict) (ctx : γ)
        (xs : List Val) (m : String),
      pyGet source (tfOpt.getD source_field) = Val.list xs →
      ((field source_field tfOpt validators true agOpt formatters).deserialize
          source target ctx).2 ≠ some (PyErr.fault m)) := by
  constructor
  · intro source_field tfOpt validators agOpt formatters source target ctx m
    rcases hv : _validate validators (EKey.str (tfOpt.getD source_field))
        (pyGet source (tfOpt.getD source_field)) ctx with e | v
    · simp [field, hv]
    · simp [field, hv]
  · intro source_field tfOpt validators agOpt formatters source target ctx xs m h
    by_cases he : (multiLoop validators ctx 0 xs [] []).2.isEmpty
    · simp [field, h, Val.asList, he]
    · simp [field, h, Val.asList, he]

/-- Witness for C7 (amended): a `multiple=True` field whose value is present
as a list raises no non-validation error. -/
theorem field_deserialize_only_validation_errors_witness :
    ((field "a" Option.none ([] : List (Validator Unit)) true Option.none
      []).deserialize [("a", Val.list [])] [] ()).2 ≠ some (PyErr.fault "TypeError") :=
  field_deserialize_only_validation_errors.2 "a" Option.none [] Option.none []
    [("a", Val.list [])] [] () [] "TypeError" rfl

theorem dictSet_mem_of_ne {α β : Type} [DecidableEq α] {d : List (α × β)}
    {k : α} {v : β} {p : α × β} (hp : p ∈ d) (hne : p.1 ≠ k) :
    p ∈ dictSet d k v := by
  induction d with
  | nil => exact absurd hp (List.not_mem_nil p)
  | cons q rest ih =>
    rcases q with ⟨k', v'⟩
    rw [dictSet]
    by_cases hk : k' = k
    · rw [if_pos hk]
      rcases List.mem_cons.1 hp with hp1 | hp2
      · subst hp1
        exact absurd hk hne
      · exact List.mem_cons_of_mem _ hp2
    · rw [if_neg hk]
      rcases List.mem_cons.1 hp with hp1 | hp2
      · exact hp1 ▸ List.mem_cons_self _ _
      · exact List.mem_cons_of_mem _ (ih hp2)

theorem dictSet_mem_self {α β : Type} [DecidableEq α] (d : List (α × β))
    (k : α) (v : β) : (k, v) ∈ dictSet d k v := by
  induction d with
  | nil => exact List.mem_singleton.2 rfl
  | cons q rest ih =>
    rcases q with ⟨k', v'⟩
    rw [dictSet]
    by_cases hk : k' = k
    · rw [if_pos hk]; exact List.mem_cons_self _ _
    · rw [if_neg hk]; exact List.mem_cons_of_mem _ ih

theorem dictUpdate_mem_left {α β : Type} [DecidableEq α] :
    ∀ {upd d : List (α × β)} {p : α × β}, p ∈ d →
      (∀ q ∈ upd, q.1 ≠ p.1) → p ∈ dictUpdate d upd := by
  intro upd
  induction upd with
  | nil => intro d p hp _; exact hp
  | cons q rest ih =>
    intro d p hp hfresh
    have h1 : dictUpdate d (q :: rest) = dictUpdate (dictSet d q.1 q.2) rest := rfl
    rw [h1]
    exact ih (dictSet_mem_of_ne hp
        (fun hc => hfresh q (List.mem_cons_self _ _) hc.symm))
      (fun r hr => hfresh r (List.mem_cons_of_mem _ hr))

theorem dictUpdate_mem_right {α β : Type} [DecidableEq α] :
    ∀ {upd : List (α × β)} (d : List (α × β)) {p : α × β},
      (upd.map Prod.fst).Nodup → p ∈ upd → p ∈ dictUpdate d upd := by
  intro upd
  induction upd with
  | nil => intro d p _ hp; exact absurd hp (List.not_mem_nil p)
  | cons q rest ih =>
    intro d p hnd hp
    have h1 : dictUpdate d (q :: rest) = dictUpdate (dictSet d q.1 q.2) rest := rfl
    rw [h1, List.map_cons] at *
    rcases List.mem_cons.1 hp with hp1 | hp2
    · subst hp1
      refine dictUpdate_mem_left (dictSet_mem_self d p.1 p.2) (fun r hr hc => ?_)
      exact (List.Nodup.not_mem hnd) (hc ▸ List.mem_map_of_mem _ hr)
    · exact ih (dictSet d q.1 q.2) (List.Nodup.of_cons hnd) hp2

theorem foldlUpdate_mem_preserve {α β : Type} [DecidableEq α] :
    ∀ (es : List (List (α × β))) (acc : List (α × β)) (p : α × β),
      p ∈ acc → (∀ e ∈ es, ∀ q ∈ e, q.1 ≠ p.1) →
      p ∈ es.foldl dictUpdate acc := by
  intro es
  induction es with
  | nil => intro acc p hp _; exact hp
  | cons e rest ih =>
    intro acc p hp hfresh
    rw [List.foldl_cons]
    exact ih (dictUpdate acc e) p
      (dictUpdate_mem_left hp (fun q hq => hfresh e (List.mem_cons_self _ _) q hq))
      (fun e' he' => hfresh e' (List.mem_cons_of_mem _ he'))

theorem foldlUpdate_mem {α β : Type} [DecidableEq α] :
    ∀ (es : List (List (α × β))) (acc : List (α × β)) (e : List (α × β))
      (p : α × β),
      List.Pairwise (fun e1 e2 => ∀ q1 ∈ e1, ∀ q2 ∈ e2, q1.1 ≠ q2.1) es →
      (∀ e' ∈ es, (e'.map Prod.fst).Nodup) →
      e ∈ es → p ∈ e → p ∈ es.foldl dictUpdate acc := by
  intro es
  induction es with
  | nil => intro acc e p _ _ he _; exact absurd he (List.not_mem_nil e)
  | cons e0 rest ih =>
    intro acc e p hpw hnds he hp
    rw [List.foldl_cons]
    rcases List.mem_cons.1 he with he1 | he2
    · subst he1
      refine foldlUpdate_mem_preserve rest (dictUpdate acc e) p
        (dictUpdate_mem_right acc (hnds e (List.mem_cons_self _ _)) hp)
        (fun e' he' q hq => ?_)
      exact ((List.pairwise_cons.1 hpw).1 e' he' p hp q hq).symm
    · exact ih (dictUpdate acc e0) e p (List.pairwise_cons.1 hpw).2
        (fun e' he' => hnds e' (List.mem_cons_of_mem _ he')) he2 hp

/-- Counterexample for C8: two scalar fields of one record builder that fail
under the same aggregate key `"a"`.  The raised aggregate carries only the
second field's message `"m2"` — the first field's caught error content
(`"m1"`) has been silently dropped by the dict-update merge, refuting the
claim that no caught validation error's content is ever dropped. -/
theorem serializer_same_key_overwrites :
    (serializer [field "x" (some "a") [failWith "m1"] false Option.none [],
                 field "y" (some "a") [failWith "m2"] false Option.none
                   []]).deserialize [] () =
      .error (.validation [(EKey.str "a", ErrVal.vlist [ErrVal.msg "m2"])]) := rfl

theorem run_validators_append (vs1 : List (Validator γ)) :
    ∀ (vs2 : List (Validator γ)) (value : Val) (ctx : γ),
      run_validators value (vs1 ++ vs2) ctx =
        ((run_validators (run_validators value vs1 ctx).1 vs2 ctx).1,
         (run_validators value vs1 ctx).2 ++
           (run_validators (run_validators value vs1 ctx).1 vs2 ctx).2) := by
  induction vs1 with
  | nil => intro vs2 value ctx; simp [run_validators]
  | cons v rest ih =>
    intro vs2 value ctx
    rw [List.cons_append]
    cases h : v value ctx with
    | ok w =>
      have h1 : run_validators value (v :: (rest ++ vs2)) ctx =
          run_validators w (rest ++ vs2) ctx := by
        rw [run_validators]; simp only [h]
      have h2 : run_validators value (v :: rest) ctx =
          run_validators w rest ctx := by
        rw [run_validators]; simp only [h]
      rw [h1, h2, ih]
    | error e =>
      have h1 : run_validators value (v :: (rest ++ vs2)) ctx =
          ((run_validators value (rest ++ vs2) ctx).1,
           e :: (run_validators value (rest ++ vs2) ctx).2) := by
        rw [run_validators]; simp only [h]
      have h2 : run_validators value (v :: rest) ctx =
          ((run_validators value rest ctx).1,
           e :: (run_validators value rest ctx).2) := by
        rw [run_validators]; simp only [h]
      rw [h1, h2, ih]
      simp

theorem specMultiErrors_mem (validators : List (Validator γ)) (ctx : γ) :
    ∀ (xs1 : List Val) (x : Val) (xs2 : List Val) (j : Nat),
      (run_validators x validators ctx).2 ≠ [] →
      (EKey.idx (j + xs1.length),
        ErrVal.vlist (run_validators x validators ctx).2) ∈
        specMultiErrors validators ctx j (xs1 ++ x :: xs2) := by
  intro xs1
  induction xs1 with
  | nil =>
    intro x xs2 j h
    have hhd : specMultiErrors validators ctx j (x :: xs2) =
        (EKey.idx j, ErrVal.vlist (run_validators x validators ctx).2) ::
          specMultiErrors validators ctx (j + 1) xs2 := by
      simp [specMultiErrors, listIsEmptyFalse h]
    rw [List.nil_append, hhd]
    simp
  | cons y rest ih =>
    intro x xs2 j h
    rw [List.cons_append]
    have harith : j + (y :: rest).length = (j + 1) + rest.length := by
      simp [List.length_cons]; omega
    rw [harith]
    by_cases hy : (run_validators y validators ctx).2.isEmpty
    · have hhd : specMultiErrors validators ctx j (y :: (rest ++ x :: xs2)) =
          specMultiErrors validators ctx (j + 1) (rest ++ x :: xs2) := by
        simp [specMultiErrors, hy]
      rw [hhd]
      exact ih x xs2 (j + 1) h
    · have hhd : specMultiErrors validators ctx j (y :: (rest ++ x :: xs2)) =
          (EKey.idx j, ErrVal.vlist (run_validators y validators ctx).2) ::
            specMultiErrors validators ctx (j + 1) (rest ++ x :: xs2) := by
        simp [specMultiErrors, hy]
      rw [hhd]
      exact List.mem_cons_of_mem _ (ih x xs2 (j + 1) h)

theorem specManyErrs_mem {os : List (Except ErrMap Dict)} {e : ErrMap}
    (h : Except.error e ∈ os) : e ∈ specManyErrs os :=
  List.mem_filterMap.2 ⟨Except.error e, h, rfl⟩

/-- C8 (amended): for every operation in the system, a validation error
caught internally is either re-raised (possibly re-keyed under the
enclosing field's name) or folded into an aggregate that is eventually
raised, with no caught error's content dropped: the validator-chain runner
returns every failing validator's payload wherever the failure occurs in
the chain; a scalar field raises the full collected error list in single
mode and, in multiple mode, a per-index mapping containing every failing
element's full error list under that element's index; a nested child
re-raises the caught sub-mapping whole, re-keyed one level deeper; a nested
list's raised payload carries every caught per-element mapping; and the
record builder, over an arbitrary mixture of succeeding and failing
fields, raises the dict-update aggregate of all raised mappings,
preserving every entry whenever the contributed keys are pairwise
distinct.  The one exception, forced by the counterexample: when two
fields of one record builder contribute error mappings under the same
aggregate key, the later field's entry overwrites the earlier one's
(dict-update semantics), dropping the earlier content. -/
theorem validation_errors_never_silently_dropped {γ : Type} :
    (∀ (value : Val) (vs1 vs2 : List (Validator γ)) (v : Validator γ) (ctx : γ)
        (e : ErrVal),
      v (run_validators value vs1 ctx).1 ctx = .error e →
      e ∈ (run_validators value (vs1 ++ v :: vs2) ctx).2) ∧
    (∀ (source_field : String) (tfOpt : Option String)
        (validators : List (Validator γ)) (source target : Dict) (ctx : γ),
      (run_validators (pyGet source (tfOpt.getD source_field)) validators ctx).2 ≠ [] →
      (field source_field tfOpt validators false Option.none []).deserialize
          source target ctx =
        (target, some (PyErr.validation [(EKey.str (tfOpt.getD source_field),
          ErrVal.vlist
            (run_validators (pyGet source (tfOpt.getD source_field))
              validators ctx).2)]))) ∧
    (∀ (source_field : String) (tfOpt : Option String)
        (validators : List (Validator γ)) (source target : Dict) (ctx : γ)
        (xs1 : List Val) (x : Val) (xs2 : List Val),
      pyGet source (tfOpt.getD source_field) = Val.list (xs1 ++ x :: xs2) →
      (run_validators x validators ctx).2 ≠ [] →
      ∃ M, (field source_field tfOpt validators true Option.none []).deserialize
          source target ctx =
        (target, some (PyErr.validation
          [(EKey.str (tfOpt.getD source_field), ErrVal.vmap M)])) ∧
        (EKey.idx xs1.length,
          ErrVal.vlist (run_validators x validators ctx).2) ∈ M) ∧
    (∀ (source_field : String) (tfOpt : Option String) (ser : Serializer γ)
        (validators : List (Validator γ)) (source target : Dict) (ctx : γ)
        (d : Dict) (e : ErrMap),
      (run_validators (pyGet source (tfOpt.getD source_field)) validators ctx).2 = [] →
      (run_validators (pyGet source (tfOpt.getD source_field)) validators ctx).1 =
        Val.dict d →
      ser.deserialize d ctx = .error (.validation e) →
      (child source_field tfOpt ser validators Option.none).deserialize
          source target ctx =
        (target, some (PyErr.validation
          [(EKey.str (tfOpt.getD source_field), ErrVal.vmap e)]))) ∧
    (∀ (source_field : String) (tfOpt : Option String) (ser : Serializer γ)
        (validators : List (Validator γ)) (source target : Dict) (ctx : γ)
        (xs : List Val) (os : List (Except ErrMap Dict)),
      (run_validators (pyGetD source (tfOpt.getD source_field) (Val.list []))
        validators ctx).2 = [] →
      (run_validators (pyGetD source (tfOpt.getD source_field) (Val.list []))
        validators ctx).1 = Val.list xs →
      List.Forall₂ (elemOutcome ser ctx) xs os →
      specManyErrs os ≠ [] →
      (many source_field tfOpt ser validators Option.none).deserialize
          source target ctx =
        (dictSet target source_field (Val.list (specManyOks os)),
         some (PyErr.validation [(EKey.str (tfOpt.getD source_field),
           ErrVal.vlist ((specManyErrs os).map ErrVal.vmap))])) ∧
      ∀ e, Except.error e ∈ os →
        ErrVal.vmap e ∈ (specManyErrs os).map ErrVal.vmap) ∧
    (∀ (fields : List (Translator γ)) (os : List (Option ErrMap)) (source : Dict)
        (ctx : γ),
      List.Forall₂
        (fun f o => ∀ t, (Translator.deserialize f source t ctx).2 =
          Option.map PyErr.validation o) fields os →
      List.Pairwise (fun e1 e2 => ∀ q1 ∈ e1, ∀ q2 ∈ e2, q1.1 ≠ q2.1)
        (os.filterMap id) →
      (∀ e ∈ os.filterMap id, (e.map Prod.fst).Nodup) →
      (os.filterMap id).foldl dictUpdate [] ≠ [] →
      (serializer fields).deserialize source ctx =
        .error (.validation ((os.filterMap id).foldl dictUpdate [])) ∧
      ∀ e ∈ os.filterMap id, ∀ p ∈ e,
        p ∈ (os.filterMap id).foldl dictUpdate []) ∧
    (∀ (f1 f2 : Translator γ) (k : EKey) (v1 v2 : ErrVal) (source : Dict) (ctx : γ),
      (∀ t, (Translator.deserialize f1 source t ctx).2 =
        some (PyErr.validation [(k, v1)])) →
      (∀ t, (Translator.deserialize f2 source t ctx).2 =
        some (PyErr.validation [(k, v2)])) →
      (serializer [f1, f2]).deserialize source ctx =
        .error (.validation [(k, v2)])) := by
  refine ⟨?_, ?_, ?_, ?_, ?_, ?_, ?_⟩
  · intro value vs1 vs2 v ctx e h
    have hcons : run_validators (run_validators value vs1 ctx).1 (v :: vs2) ctx =
        ((run_validators (run_validators value vs1 ctx).1 vs2 ctx).1,
         e :: (run_validators (run_validators value vs1 ctx).1 vs2 ctx).2) := by
      rw [run_validators]; simp only [h]
    rw [run_validators_append vs1 (v :: vs2) value ctx]
    simp only [hcons]
    simp
  · intro source_field tfOpt validators source target ctx h
    have hv : _validate validators (EKey.str (tfOpt.getD source_field))
        (pyGet source (tfOpt.getD source_field)) ctx =
        .error [(EKey.str (tfOpt.getD source_field),
          ErrVal.vlist
            (run_validators (pyGet source (tfOpt.getD source_field))
              validators ctx).2)] := by
      simp [_validate, listIsEmptyFalse h]
    simp [field, hv]
  · intro source_field tfOpt validators source target ctx xs1 x xs2 hlist hx
    have hmem := specMultiErrors_mem validators ctx xs1 x xs2 0 hx
    refine ⟨specMultiErrors validators ctx 0 (xs1 ++ x :: xs2), ?_,
      by simpa using hmem⟩
    have hne : specMultiErrors validators ctx 0 (xs1 ++ x :: xs2) ≠ [] :=
      List.ne_nil_of_mem hmem
    have hml := multiLoop_spec validators ctx (xs1 ++ x :: xs2) 0 [] []
      (fun p hp => absurd hp (List.not_mem_nil p))
    simp only [field, hlist, Val.asList, if_true]
    rw [hml]
    simp [listIsEmptyFalse hne]
  · intro source_field tfOpt ser validators source target ctx d e h1 h2 h3
    simp [child, preValidate_of_noErrors (tfOpt.getD source_field) h1, h2,
      Val.asDict, h3]
  · intro source_field tfOpt ser validators source target ctx xs os hv hl ho hne
    constructor
    · simp [many, preValidate_of_noErrors (tfOpt.getD source_field) hv, hl,
        Val.asList, manyLoop_spec ser ctx ho, listIsEmptyFalse hne]
    · intro e he
      exact List.mem_map_of_mem ErrVal.vmap (specManyErrs_mem he)
  · intro fields os source ctx hf hpw hnds hne
    constructor
    · obtain ⟨t', ht'⟩ := serLoopD_outcomes source ctx hf [] []
      show (match serLoopD source ctx fields [] [] with
        | .error m => .error (.fault m)
        | .ok (target, errs) =>
          if errs.isEmpty then .ok target else .error (.validation errs)) =
        (.error (.validation ((os.filterMap id).foldl dictUpdate [])) :
          Except PyErr Dict)
      rw [ht']
      simp [listIsEmptyFalse hne]
    · intro e he p hp
      exact foldlUpdate_mem (os.filterMap id) [] e p hpw hnds he hp
  · intro f1 f2 k v1 v2 source ctx h1 h2
    rcases hd1 : Translator.deserialize f1 source [] ctx with ⟨t1, o1⟩
    have ho1 := h1 []
    rw [hd1] at ho1
    simp only at ho1
    subst ho1
    rcases hd2 : Translator.deserialize f2 source t1 ctx with ⟨t2, o2⟩
    have ho2 := h2 t1
    rw [hd2] at ho2
    simp only at ho2
    subst ho2
    have hupd : dictUpdate (dictUpdate ([] : ErrMap) [(k, v1)]) [(k, v2)] =
        [(k, v2)] := by
      show dictSet (dictSet [] k v1) k v2 = [(k, v2)]
      simp [dictSet]
    have hld : serLoopD source ctx [f1, f2] [] [] = .ok (t2, [(k, v2)]) := by
      simp only [serLoopD, hd1, hd2]
      rw [hupd]
    simp [serializer, hld]

/-- Witness for C8 (amended): a mixed record — a field failing under key
`"a"`, a passing field, and a field failing under key `"c"` — raises the
aggregate carrying both failing fields' full error entries, and the first
field's entry is a member of that aggregate. -/
theorem validation_errors_never_silently_dropped_witness :
    ((serializer [field "x" (some "a") [failWith "m1"] false Option.none [],
                  field "b" Option.none [] false Option.none [],
                  field "y" (some "c") [failWith "m3"] false Option.none
                    []]).deserialize [] () =
      .error (.validation
        [(EKey.str "a", ErrVal.vlist [ErrVal.msg "m1"]),
         (EKey.str "c", ErrVal.vlist [ErrVal.msg "m3"])])) ∧
    (EKey.str "a", ErrVal.vlist [ErrVal.msg "m1"]) ∈
      ([(EKey.str "a", ErrVal.vlist [ErrVal.msg "m1"]),
        (EKey.str "c", ErrVal.vlist [ErrVal.msg "m3"])] : ErrMap) := by
  have h := validation_errors_never_silently_dropped.2.2.2.2.2.1
    [field "x" (some "a") [failWith "m1"] false Option.none [],
     field "b" Option.none [] false Option.none [],
     field "y" (some "c") [failWith "m3"] false Option.none []]
    [some [(EKey.str "a", ErrVal.vlist [ErrVal.msg "m1"])],
     Option.none,
     some [(EKey.str "c", ErrVal.vlist [ErrVal.msg "m3"])]]
    [] ()
    (List.Forall₂.cons (fun _ => rfl)
      (List.Forall₂.cons (fun _ => rfl)
        (List.Forall₂.cons (fun _ => rfl) List.Forall₂.nil)))
    (by decide) (by decide) (fun hcontra => nomatch hcontra)
  refine ⟨h.1.trans rfl, ?_⟩
  exact h.2 [(EKey.str "a", ErrVal.vlist [ErrVal.msg "m1"])]
    (List.mem_cons_self _ _) (EKey.str "a", ErrVal.vlist [ErrVal.msg "m1"])
    (List.mem_cons_self _ _)
theorem dictGet_map_self {α β δ : Type} [DecidableEq α] :
    ∀ (l : List δ) (key : δ → α) (w : δ → β) (q : δ),
      (l.map key).Nodup → q ∈ l →
      dictGet (l.map (fun r => (key r, w r))) (key q) = some (w q) := by
  intro l
  induction l with
  | nil => intro key w q _ hq; exact absurd hq (List.not_mem_nil q)
  | cons r0 rest ih =>
    intro key w q hnd hq
    simp only [List.map_cons, dictGet]
    rcases List.mem_cons.1 hq with h1 | h2
    · subst h1
      rw [if_pos rfl]
    · have hne : key r0 ≠ key q := by
        rw [List.map_cons] at hnd
        intro hc
        exact (List.Nodup.not_mem hnd) (hc ▸ List.mem_map_of_mem key h2)
      rw [if_neg hne]
      exact ih key w q (by rw [List.map_cons] at hnd; exact hnd.of_cons) h2

theorem dictGet_map_none {α β δ : Type} [DecidableEq α] :
    ∀ (l : List δ) (key : δ → α) (w : δ → β) (k : α),
      k ∉ l.map key →
      dictGet (l.map (fun r => (key r, w r))) k = Option.none := by
  intro l
  induction l with
  | nil => intro key w k _; rfl
  | cons r0 rest ih =>
    intro key w k hk
    simp only [List.map_cons, dictGet]
    rw [List.map_cons] at hk
    have hne : key r0 ≠ k := fun hc => hk (hc ▸ List.mem_cons_self _ _)
    rw [if_neg hne]
    exact ih key w k (fun hc => hk (List.mem_cons_of_mem _ hc))

theorem serLoopS_dict_fields :
    ∀ (specs : List (String × String)) (dx target : Dict) (ctx : γ),
      (specs.map Prod.snd).Nodup →
      (∀ q ∈ specs, ∀ p ∈ target, q.2 ≠ p.1) →
      serLoopS (Val.dict dx) ctx
        (specs.map (fun p => dict_field p.1 (some p.2) [] false [])) target =
        .ok (target ++ specs.map (fun p => (p.2, pyGet dx p.1))) := by
  intro specs
  induction specs with
  | nil => intro dx target ctx _ _; simp [serLoopS]
  | cons p0 rest ih =>
    intro dx target ctx hnd hfresh
    have hser : (dict_field p0.1 (some p0.2) [] false [] : Translator γ).serialize
        (Val.dict dx) target ctx = .ok (dictSet target p0.2 (pyGet dx p0.1)) := rfl
    have hset : dictSet target p0.2 (pyGet dx p0.1) = target ++ [(p0.2, pyGet dx p0.1)] :=
      dictSet_fresh target p0.2 (pyGet dx p0.1)
        (fun p hp hc => hfresh p0 (List.mem_cons_self _ _) p hp hc.symm)
    simp only [List.map_cons, serLoopS, hser, hset]
    rw [ih dx (target ++ [(p0.2, pyGet dx p0.1)]) ctx
      (by rw [List.map_cons] at hnd; exact hnd.of_cons)
      (fun q hq p hp => by
        rcases List.mem_append.1 hp with hp1 | hp2
        · exact hfresh q (List.mem_cons_of_mem _ hq) p hp1
        · have hpe : p = (p0.2, pyGet dx p0.1) := List.mem_singleton.1 hp2
          subst hpe
          rw [List.map_cons] at hnd
          exact fun hc => (List.Nodup.not_mem hnd)
            ((show q.2 = p0.2 from hc) ▸ List.mem_map_of_mem Prod.snd hq))]
    simp

theorem serLoopD_dict_fields :
    ∀ (specs : List (String × String)) (dy target : Dict) (errs : ErrMap) (ctx : γ),
      (specs.map Prod.fst).Nodup →
      (∀ q ∈ specs, ∀ p ∈ target, q.1 ≠ p.1) →
      serLoopD dy ctx
        (specs.map (fun p => dict_field p.1 (some p.2) [] false [])) target errs =
        .ok (target ++ specs.map (fun p => (p.1, pyGet dy p.2)), errs) := by
  intro specs
  induction specs with
  | nil => intro dy target errs ctx _ _; simp [serLoopD]
  | cons p0 rest ih =>
    intro dy target errs ctx hnd hfresh
    have hdes : (dict_field p0.1 (some p0.2) [] false [] : Translator γ).deserialize
        dy target ctx = (dictSet target p0.1 (pyGet dy p0.2), Option.none) := rfl
    have hset : dictSet target p0.1 (pyGet dy p0.2) = target ++ [(p0.1, pyGet dy p0.2)] :=
      dictSet_fresh target p0.1 (pyGet dy p0.2)
        (fun p hp hc => hfresh p0 (List.mem_cons_self _ _) p hp hc.symm)
    simp only [List.map_cons, serLoopD, hdes, hset]
    rw [ih dy (target ++ [(p0.1, pyGet dy p0.2)]) errs ctx
      (by rw [List.map_cons] at hnd; exact hnd.of_cons)
      (fun q hq p hp => by
        rcases List.mem_append.1 hp with hp1 | hp2
        · exact hfresh q (List.mem_cons_of_mem _ hq) p hp1
        · have hpe : p = (p0.1, pyGet dy p0.2) := List.mem_singleton.1 hp2
          subst hpe
          rw [List.map_cons] at hnd
          exact fun hc => (List.Nodup.not_mem hnd)
            ((show q.1 = p0.1 from hc) ▸ List.mem_map_of_mem Prod.fst hq))]
    simp

/-- C9: for a record built only from identity dict-keyed fields (no
validators, no formatters) with distinct internal and distinct external
names, and for well-typed inputs — an internal mapping whose keys are
exactly the fields' source names, resp. an external mapping whose keys are
exactly the fields' target names — `deserialize (serialize x)` equals `x`
and `serialize (deserialize y)` equals `y` as Python dicts (agreeing on
every key).  The attribute-reading variant of `field` cannot round-trip,
since `deserialize` produces a mapping while its serializer reads object
attributes, so the dict-keyed accessor is the well-typed instantiation. -/
theorem serializer_round_trip {γ : Type} :
    (∀ (specs : List (String × String)) (dx : Dict) (ctx : γ),
      (specs.map Prod.fst).Nodup →
      (specs.map Prod.snd).Nodup →
      (∀ p ∈ specs, (dictGet dx p.1).isSome) →
      (∀ k, (dictGet dx k).isSome → k ∈ specs.map Prod.fst) →
      (serializer (specs.map (fun p =>
          dict_field p.1 (some p.2) [] false []))).serialize (Val.dict dx) ctx =
        .ok (specs.map (fun p => (p.2, pyGet dx p.1))) ∧
      (serializer (specs.map (fun p =>
          dict_field p.1 (some p.2) [] false []))).deserialize
          (specs.map (fun p => (p.2, pyGet dx p.1))) ctx =
        .ok (specs.map (fun p => (p.1, pyGet dx p.1))) ∧
      dictEqv (specs.map (fun p => (p.1, pyGet dx p.1))) dx) ∧
    (∀ (specs : List (String × String)) (dy : Dict) (ctx : γ),
      (specs.map Prod.fst).Nodup →
      (specs.map Prod.snd).Nodup →
      (∀ p ∈ specs, (dictGet dy p.2).isSome) →
      (∀ k, (dictGet dy k).isSome → k ∈ specs.map Prod.snd) →
      (serializer (specs.map (fun p =>
          dict_field p.1 (some p.2) [] false []))).deserialize dy ctx =
        .ok (specs.map (fun p => (p.1, pyGet dy p.2))) ∧
      (serializer (specs.map (fun p =>
          dict_field p.1 (some p.2) [] false []))).serialize
          (Val.dict (specs.map (fun p => (p.1, pyGet dy p.2)))) ctx =
        .ok (specs.map (fun p => (p.2, pyGet dy p.2))) ∧
      dictEqv (specs.map (fun p => (p.2, pyGet dy p.2))) dy) := by
  constructor
  · intro specs dx ctx hnf hns hin hcov
    refine ⟨?_, ?_, ?_⟩
    · have h1 := serLoopS_dict_fields specs dx [] ctx hns
        (fun q _ p hp => absurd hp (List.not_mem_nil p))
      simpa [serializer] using h1
    · have h2 := serLoopD_dict_fields specs
        (specs.map (fun p => (p.2, pyGet dx p.1))) [] [] ctx hnf
        (fun q _ p hp => absurd hp (List.not_mem_nil p))
      have h3 : (specs.map (fun p =>
          (p.1, pyGet (specs.map (fun r => (r.2, pyGet dx r.1))) p.2))) =
          specs.map (fun p => (p.1, pyGet dx p.1)) := by
        refine List.map_congr_left (fun p hp => ?_)
        have hlook : dictGet (specs.map (fun r => (r.2, pyGet dx r.1))) p.2 =
            some (pyGet dx p.1) :=
          dictGet_map_self specs Prod.snd (fun r => pyGet dx r.1) p hns hp
        exact congrArg (fun v => (p.1, v)) (by rw [pyGet, hlook]; rfl)
      rw [h3] at h2
      simp [serializer, h2]
    · intro k
      cases hm : dictGet dx k with
      | some v =>
        have hk : k ∈ specs.map Prod.fst := hcov k (by rw [hm]; rfl)
        obtain ⟨p, hp, hpk⟩ := List.mem_map.1 hk
        subst hpk
        rw [dictGet_map_self specs Prod.fst (fun r => pyGet dx r.1) p hnf hp]
        simp [pyGet, hm]
      | none =>
        have hk : k ∉ specs.map Prod.fst := by
          intro hkin
          obtain ⟨p, hp, hpk⟩ := List.mem_map.1 hkin
          have hsome := hin p hp
          rw [hpk, hm] at hsome
          simp at hsome
        rw [dictGet_map_none specs Prod.fst (fun r => pyGet dx r.1) k hk]
  · intro specs dy ctx hnf hns hin hcov
    refine ⟨?_, ?_, ?_⟩
    · have h2 := serLoopD_dict_fields specs dy [] [] ctx hnf
        (fun q _ p hp => absurd hp (List.not_mem_nil p))
      simp [serializer, h2]
    · have h1 := serLoopS_dict_fields specs
        (specs.map (fun p => (p.1, pyGet dy p.2))) [] ctx hns
        (fun q _ p hp => absurd hp (List.not_mem_nil p))
      have h3 : (specs.map (fun p =>
          (p.2, pyGet (specs.map (fun r => (r.1, pyGet dy r.2))) p.1))) =
          specs.map (fun p => (p.2, pyGet dy p.2)) := by
        refine List.map_congr_left (fun p hp => ?_)
        have hlook : dictGet (specs.map (fun r => (r.1, pyGet dy r.2))) p.1 =
            some (pyGet dy p.2) :=
          dictGet_map_self specs Prod.fst (fun r => pyGet dy r.2) p hnf hp
        exact congrArg (fun v => (p.2, v)) (by rw [pyGet, hlook]; rfl)
      rw [h3] at h1
      simpa [serializer] using h1
    · intro k
      cases hm : dictGet dy k with
      | some v =>
        have hk : k ∈ specs.map Prod.snd := hcov k (by rw [hm]; rfl)
        obtain ⟨p, hp, hpk⟩ := List.mem_map.1 hk
        subst hpk
        rw [dictGet_map_self specs Prod.snd (fun r => pyGet dy r.2) p hns hp]
        simp [pyGet, hm]
      | none =>
        have hk : k ∉ specs.map Prod.snd := by
          intro hkin
          obtain ⟨p, hp, hpk⟩ := List.mem_map.1 hkin
          have hsome := hin p hp
          rw [hpk, hm] at hsome
          simp at hsome
        rw [dictGet_map_none specs Prod.snd (fun r => pyGet dy r.2) k hk]

/-- Witness for C9: a concrete two-field record with renaming, round-tripped
in both directions. -/
theorem serializer_round_trip_witness :
    (serializer [dict_field "a" (some "x") [] false [],
                 dict_field "b" (some "y") [] false []] : Serializer Unit).serialize
        (Val.dict [("a", Val.int 1), ("b", Val.str "z")]) () =
      .ok [("x", Val.int 1), ("y", Val.str "z")] ∧
    (serializer [dict_field "a" (some "x") [] false [],
                 dict_field "b" (some "y") [] false []] : Serializer Unit).deserialize
        [("x", Val.int 1), ("y", Val.str "z")] () =
      .ok [("a", Val.int 1), ("b", Val.str "z")] ∧
    dictEqv [("a", Val.int 1), ("b", Val.str "z")] [("a", Val.int 1), ("b", Val.str "z")] := by
  have h := serializer_round_trip.1 [("a", "x"), ("b", "y")]
    [("a", Val.int 1), ("b", Val.str "z")] ()
    (by decide) (by decide) (by decide)
    (by
      intro k hk
      by_cases h1 : "a" = k
      · subst h1; decide
      · by_cases h2 : "b" = k
        · subst h2; decide
        · exfalso
          simp [dictGet, h1, h2] at hk)
  exact ⟨h.1.trans rfl, h.2.1.trans rfl, h.2.2⟩

end Strainer
